import Mathlib

/-!
Verification of the marblejoiner chat-trigger program (src/main.rs).

The program watches chat channels; per channel it keeps a fixed ring buffer
of booleans (`buffer`), a write cursor (`current_position`) and the earliest
time of the next allowed trigger (`next_play`).  On each chat message it
advances the cursor, writes whether the message text starts with "!play",
and — when the cooldown has expired and the count of `true` entries reaches
the threshold — resets the cooldown, clears the buffer, waits, and sends the
configured trigger text.

Shallow embedding conventions:
* `Instant` is modelled as a `Nat` timestamp; `Duration` as a `Nat`.
  A single `now` parameter stands for the (at most microseconds apart)
  `Instant::now()` calls inside one invocation of `process_message`.
* Rust panics (`unwrap` on a missing map entry, index out of bounds,
  `%` by zero) are modelled by returning `none`.
* The `tokio` channel map `HashMap<String, ChannelMarbleState>` is modelled
  as an association list.
* The result of `client.say(..).await` is an `Except String Unit` passed in
  as a parameter; the `?` operator propagates it after the state mutations.
-/

/-- The decision taken by one observation: the spec's `TriggerDecision`.
`Fire` corresponds to the branch of `ChannelMarbleState::process_message`
that resets the cooldown, clears the buffer and sends the trigger text. -/
inductive Decision where
  | Fire : Decision
  | NoFire : Decision
deriving DecidableEq

/-- The configuration value object `AppParams` from src/main.rs (durations in
seconds, as in the CLI surface). -/
structure AppParams where
  buffer_size : Nat
  treshhold : Nat
  delay : Nat
  wait : Nat
  play_message : String
  login : String
  oauth : String
deriving DecidableEq

/-- Per-channel detector state `ChannelMarbleState` from src/main.rs. -/
structure ChannelMarbleState where
  login : String
  buffer : List Bool
  current_position : Nat
  next_play : Nat
deriving DecidableEq

/-- The match predicate applied to a message text:
`message.starts_with("!play")` in src/main.rs line 187.  Rust's
`str::starts_with` is rendered as a prefix test on the character
sequence (Lean's `String.startsWith` is extensionally the same but is
defined by well-founded recursion and cannot be evaluated by the
kernel). -/
def match_predicate (message : String) : Bool :=
  "!play".toList.isPrefixOf message.toList

/-- `ChannelMarbleState::new`: all-false buffer of length `buffer_size`,
cursor 0, `next_play = Instant::now()` (the creation time `now`). -/
def ChannelMarbleState.new (login : String) (buffer_size : Nat) (now : Nat) :
    ChannelMarbleState :=
  { login := login
    buffer := List.replicate buffer_size false
    current_position := 0
    next_play := now }

/-- `ChannelMarbleState::is_time_to_play`: `self.next_play < Instant::now()`
(strict comparison). -/
def ChannelMarbleState.is_time_to_play (st : ChannelMarbleState) (now : Nat) : Bool :=
  decide (st.next_play < now)

/-- `ChannelMarbleState::is_treshhold_reached`:
`self.buffer.iter().filter(|x| **x).count() >= app_params.treshhold`. -/
def ChannelMarbleState.is_treshhold_reached (st : ChannelMarbleState) (p : AppParams) : Bool :=
  decide (p.treshhold ≤ (st.buffer.filter fun x => x).length)

/-- `ChannelMarbleState::clear_buffer`: sets every entry to `false`. -/
def clear_buffer (l : List Bool) : List Bool :=
  l.map fun _ => false

/-- The number of `true` entries of the buffer — the count that
`is_treshhold_reached` compares against the threshold. -/
def match_count (st : ChannelMarbleState) : Nat :=
  (st.buffer.filter fun x => x).length

/-- Lines 186–187 of `ChannelMarbleState::process_message`: advance the
cursor (`(current_position + 1) % buffer_size`) and write the predicate
result of the message at the new cursor. -/
def ChannelMarbleState.write_message (st : ChannelMarbleState) (p : AppParams)
    (message : String) : ChannelMarbleState :=
  ChannelMarbleState.mk st.login
    (st.buffer.set ((st.current_position + 1) % p.buffer_size)
      (match_predicate message))
    ((st.current_position + 1) % p.buffer_size)
    st.next_play

/-- `ChannelMarbleState::process_message` (src/main.rs lines 180–196), up to
but excluding the `thread::sleep` / `client.say` call: advance the cursor,
write the predicate result, and decide.  `none` models a panic:
`% 0` when `buffer_size = 0`, or an out-of-bounds buffer write. -/
def ChannelMarbleState.process_message (st : ChannelMarbleState) (p : AppParams)
    (message : String) (now : Nat) : Option (ChannelMarbleState × Decision) :=
  if p.buffer_size = 0 then
    none
  else if (st.current_position + 1) % p.buffer_size < st.buffer.length then
    if (st.write_message p message).is_time_to_play now &&
        (st.write_message p message).is_treshhold_reached p then
      some (ChannelMarbleState.mk (st.write_message p message).login
              (clear_buffer (st.write_message p message).buffer)
              (st.write_message p message).current_position
              (now + p.delay),
            Decision.Fire)
    else
      some (st.write_message p message, Decision.NoFire)
  else
    none

/-- `ChannelMarbleState::process_message` including the outbound
`client.say(..).await?`: the say result (passed in as `sayResult`) is
propagated by `?` only after the state mutations; they are never rolled
back. -/
def ChannelMarbleState.process_message_io (st : ChannelMarbleState) (p : AppParams)
    (message : String) (now : Nat) (sayResult : Except String Unit) :
    Option (ChannelMarbleState × Except String Unit) :=
  match st.process_message p message now with
  | none => none
  | some (st1, Decision.Fire) => some (st1, sayResult)
  | some (st1, Decision.NoFire) => some (st1, Except.ok ())

/-- The inbound `twitch_irc::message::ServerMessage`, reduced to the shape
the dispatcher distinguishes: `Privmsg` (chat message with channel login and
text) versus every other variant. -/
inductive ServerMessage where
  | Privmsg : String → String → ServerMessage
  | Other : ServerMessage

/-- Replace the state bound to channel `ch` (models mutation through
`HashMap::get_mut`). -/
def set_state (states : List (String × ChannelMarbleState)) (ch : String)
    (st : ChannelMarbleState) : List (String × ChannelMarbleState) :=
  states.map fun kv => if kv.1 == ch then (kv.1, st) else kv

/-- The dispatcher `process_message` (src/main.rs lines 150–168): on a
`Privmsg`, `marble_states.get_mut(&channel_login).unwrap()` — the `unwrap`
panics (`none`) when the channel is not in the map — then the channel's
`process_message`; every other server message falls into the `_ => {}` arm
and returns `Ok(())` with no state change. -/
def process_message (p : AppParams) (states : List (String × ChannelMarbleState))
    (sm : ServerMessage) (now : Nat) : Option (List (String × ChannelMarbleState)) :=
  match sm with
  | ServerMessage.Privmsg channel_login message_text =>
    match states.lookup channel_login with
    | none => none
    | some st =>
      match st.process_message p message_text now with
      | none => none
      | some (st1, _) => some (set_state states channel_login st1)
  | ServerMessage.Other => some states

/-- The startup validation performed by the `Cli` declaration (src/main.rs
lines 18–80): clap's `forbid_empty_values` on `login`, `oauth` and each
`channels` entry.  No range check ties `treshhold` to `buffer_size` and no
check requires `buffer_size ≥ 1` or a non-empty channel list. -/
structure Cli where
  buffer_size : Nat
  treshhold : Nat
  delay : Nat
  wait : Nat
  play_message : String
  login : String
  oauth : String
  channels : List String

/-- Whether clap accepts the parsed arguments: only the `forbid_empty_values`
constraints declared on the `Cli` struct. -/
def cli_accepts (c : Cli) : Bool :=
  (c.login != "") && (c.oauth != "") && c.channels.all fun ch => ch != ""

/-- Run a sequence of timestamped messages through one channel's
`process_message`, propagating a panic as `none`. -/
def run_steps (p : AppParams) : ChannelMarbleState → List (String × Nat) →
    Option ChannelMarbleState
  | st, [] => some st
  | st, (m, t) :: rest =>
    match st.process_message p m t with
    | none => none
    | some (st1, _) => run_steps p st1 rest

/-- Run a sequence of timestamped messages through one channel's
`process_message`, requiring every observation to decide `NoFire`
(a fire — which clears the buffer — or a panic yields `none`). -/
def run_no_fire (p : AppParams) : ChannelMarbleState → List (String × Nat) →
    Option ChannelMarbleState
  | st, [] => some st
  | st, (m, t) :: rest =>
    match st.process_message p m t with
    | some (st1, Decision.NoFire) => run_no_fire p st1 rest
    | _ => none

/-! ### Characterization of one `process_message` step -/

theorem process_message_noFire {p : AppParams} {st st1 : ChannelMarbleState}
    {m : String} {t : Nat}
    (h : st.process_message p m t = some (st1, Decision.NoFire)) :
    st1 = st.write_message p m := by
  unfold ChannelMarbleState.process_message at h
  split_ifs at h
  · simp at h
  · simp only [Option.some.injEq, Prod.mk.injEq] at h
    exact h.1.symm

theorem process_message_noFire_cond {p : AppParams} {st st1 : ChannelMarbleState}
    {m : String} {t : Nat}
    (h : st.process_message p m t = some (st1, Decision.NoFire)) :
    ¬(st.next_play < t ∧ p.treshhold ≤ match_count (st.write_message p m)) := by
  unfold ChannelMarbleState.process_message at h
  split_ifs at h with h0 h1 h2
  · simp at h
  · intro hcond
    apply h2
    simp only [ChannelMarbleState.is_time_to_play,
      ChannelMarbleState.is_treshhold_reached, Bool.and_eq_true, decide_eq_true_eq]
    exact ⟨by simpa [ChannelMarbleState.write_message] using hcond.1,
      by simpa [match_count] using hcond.2⟩

theorem process_message_fire {p : AppParams} {st st1 : ChannelMarbleState}
    {m : String} {t : Nat}
    (h : st.process_message p m t = some (st1, Decision.Fire)) :
    st1 = ChannelMarbleState.mk (st.write_message p m).login
            (clear_buffer ((st.write_message p m).buffer))
            ((st.write_message p m).current_position)
            (t + p.delay) ∧
    st.next_play < t ∧
    p.treshhold ≤ match_count (st.write_message p m) := by
  unfold ChannelMarbleState.process_message at h
  split_ifs at h with h0 h1 h2
  · simp only [Option.some.injEq, Prod.mk.injEq] at h
    refine ⟨h.1.symm, ?_, ?_⟩
    · have := ((Bool.and_eq_true _ _).mp h2).1
      simpa [ChannelMarbleState.is_time_to_play, ChannelMarbleState.write_message]
        using this
    · have := ((Bool.and_eq_true _ _).mp h2).2
      simpa [ChannelMarbleState.is_treshhold_reached, match_count] using this
  · simp at h

theorem process_message_guards {p : AppParams} {st : ChannelMarbleState}
    {m : String} {t : Nat} {r : ChannelMarbleState × Decision}
    (h : st.process_message p m t = some r) :
    0 < p.buffer_size ∧
    (st.current_position + 1) % p.buffer_size < st.buffer.length := by
  unfold ChannelMarbleState.process_message at h
  split_ifs at h with h0 h1 h2
  all_goals exact ⟨Nat.pos_of_ne_zero h0, h1⟩

theorem process_message_cursor {p : AppParams} {st st1 : ChannelMarbleState}
    {m : String} {t : Nat} {d : Decision}
    (h : st.process_message p m t = some (st1, d)) :
    st1.current_position = (st.current_position + 1) % p.buffer_size := by
  cases d
  · rw [(process_message_fire h).1]
    simp [ChannelMarbleState.write_message]
  · rw [process_message_noFire h]
    simp [ChannelMarbleState.write_message]

theorem process_message_length {p : AppParams} {st st1 : ChannelMarbleState}
    {m : String} {t : Nat} {d : Decision}
    (h : st.process_message p m t = some (st1, d)) :
    st1.buffer.length = st.buffer.length := by
  cases d
  · rw [(process_message_fire h).1]
    simp [clear_buffer, ChannelMarbleState.write_message]
  · rw [process_message_noFire h]
    simp [ChannelMarbleState.write_message]

theorem process_message_next_play_le {p : AppParams} {st st1 : ChannelMarbleState}
    {m : String} {t : Nat} {d : Decision}
    (h : st.process_message p m t = some (st1, d)) :
    st.next_play ≤ st1.next_play := by
  cases d
  · obtain ⟨h1, h2, -⟩ := process_message_fire h
    rw [h1]
    exact Nat.le_trans (Nat.le_of_lt h2) (Nat.le_add_right _ _)
  · rw [process_message_noFire h]
    exact Nat.le_refl _

theorem process_message_total {p : AppParams} {st : ChannelMarbleState}
    (m : String) (t : Nat)
    (h1 : 0 < p.buffer_size) (h2 : st.buffer.length = p.buffer_size) :
    ∃ r, st.process_message p m t = some r := by
  unfold ChannelMarbleState.process_message
  have hlt : (st.current_position + 1) % p.buffer_size < st.buffer.length := by
    rw [h2]
    exact Nat.mod_lt _ h1
  rw [if_neg (Nat.pos_iff_ne_zero.mp h1), if_pos hlt]
  split_ifs
  · exact ⟨_, rfl⟩
  · exact ⟨_, rfl⟩

/-! ### C4 — fire resets the state and is not rolled back on send failure -/

/-- C4: whenever `process_message` decides `Fire` at time `now`, the
resulting state has `next_play = now + delay` and an all-false buffer (match
count 0), and the full operation including the outbound send propagates any
send failure without rolling these mutations back. -/
theorem C4_fire_resets_state (p : AppParams) (st st1 : ChannelMarbleState)
    (m : String) (now : Nat)
    (h : st.process_message p m now = some (st1, Decision.Fire)) :
    st1.next_play = now + p.delay ∧
    (∀ b ∈ st1.buffer, b = false) ∧
    match_count st1 = 0 ∧
    ∀ sayResult : Except String Unit,
      st.process_message_io p m now sayResult = some (st1, sayResult) := by
  obtain ⟨h1, -, -⟩ := process_message_fire h
  subst h1
  refine ⟨rfl, ?_, ?_, ?_⟩
  · intro b hb
    simp only [clear_buffer, List.mem_map] at hb
    obtain ⟨-, -, hb⟩ := hb
    exact hb.symm
  · simp [match_count, clear_buffer, List.filter_map, Function.comp]
  · intro sayResult
    unfold ChannelMarbleState.process_message_io
    rw [h]

/-- Witness for C4 at a concrete fire. -/
theorem C4_fire_resets_state_witness :
    (ChannelMarbleState.mk "c" [false, false] 1 15).next_play = 5 + 10 ∧
    (∀ b ∈ (ChannelMarbleState.mk "c" [false, false] 1 15).buffer, b = false) ∧
    match_count (ChannelMarbleState.mk "c" [false, false] 1 15) = 0 ∧
    ∀ sayResult : Except String Unit,
      (ChannelMarbleState.mk "c" [true, false] 0 0).process_message_io
        (AppParams.mk 2 1 10 0 "m" "l" "o") "hello" 5 sayResult =
      some (ChannelMarbleState.mk "c" [false, false] 1 15, sayResult) :=
  C4_fire_resets_state (AppParams.mk 2 1 10 0 "m" "l" "o")
    (ChannelMarbleState.mk "c" [true, false] 0 0)
    (ChannelMarbleState.mk "c" [false, false] 1 15) "hello" 5 (by decide)

/-! ### C7 — the cooldown comparison is strict -/

/-- C7 fails on the code: at the exact instant `now = next_eligible_at`, with
match count ≥ threshold (threshold 0 here), `process_message` decides
`NoFire`, because `is_time_to_play` is the strict `next_play < now`. -/
theorem C7_counterexample :
    (ChannelMarbleState.mk "c" [false] 0 5).next_play = 5 ∧
    (AppParams.mk 1 0 10 0 "m" "l" "o").treshhold ≤
      match_count ((ChannelMarbleState.mk "c" [false] 0 5).write_message
        (AppParams.mk 1 0 10 0 "m" "l" "o") "x") ∧
    (ChannelMarbleState.mk "c" [false] 0 5).process_message
      (AppParams.mk 1 0 10 0 "m" "l" "o") "x" 5 =
    some ((ChannelMarbleState.mk "c" [false] 0 5).write_message
      (AppParams.mk 1 0 10 0 "m" "l" "o") "x", Decision.NoFire) := by
  decide

/-- C7 amended: an observation decides `Fire` exactly when
`next_eligible_at < now` (strictly) and the post-write match count reaches
the threshold; in particular at `now = next_eligible_at` it decides `NoFire`
regardless of the match count. -/
theorem C7_fire_iff (p : AppParams) (st st1 : ChannelMarbleState)
    (m : String) (now : Nat) (d : Decision)
    (h : st.process_message p m now = some (st1, d)) :
    d = Decision.Fire ↔
      (st.next_play < now ∧ p.treshhold ≤ match_count (st.write_message p m)) := by
  constructor
  · intro hd
    subst hd
    exact (process_message_fire h).2
  · intro hcond
    cases d
    · rfl
    · exact absurd hcond (process_message_noFire_cond h)

/-- Witness for C7 amended at a concrete `NoFire` step. -/
theorem C7_fire_iff_witness :
    Decision.NoFire = Decision.Fire ↔
      ((ChannelMarbleState.mk "c" [false] 0 5).next_play < 5 ∧
       (AppParams.mk 1 0 10 0 "m" "l" "o").treshhold ≤
         match_count ((ChannelMarbleState.mk "c" [false] 0 5).write_message
           (AppParams.mk 1 0 10 0 "m" "l" "o") "x")) :=
  C7_fire_iff (AppParams.mk 1 0 10 0 "m" "l" "o")
    (ChannelMarbleState.mk "c" [false] 0 5)
    ((ChannelMarbleState.mk "c" [false] 0 5).write_message
      (AppParams.mk 1 0 10 0 "m" "l" "o") "x") "x" 5 Decision.NoFire (by decide)

/-! ### C2 — non-matching messages and the frame of a `NoFire` observation -/

/-- C2 fails on the code: a non-matching message can itself complete a fire.
Here the threshold (1) is already met by another buffer slot and the
cooldown has expired, so observing "hello" fires: `next_play` changes from
0 to 15 and the history buffer is cleared. -/
theorem C2_counterexample :
    match_predicate "hello" = false ∧
    (ChannelMarbleState.mk "c" [true, false] 0 0).process_message
      (AppParams.mk 2 1 10 0 "m" "l" "o") "hello" 5 =
    some (ChannelMarbleState.mk "c" [false, false] 1 15, Decision.Fire) ∧
    (ChannelMarbleState.mk "c" [false, false] 1 15).next_play ≠
      (ChannelMarbleState.mk "c" [true, false] 0 0).next_play := by
  decide

/-- C2 amended: observing a non-matching message that does not fire (returns
`NoFire`) leaves `next_play` unchanged and performs only the regular
single-slot write of `false` — the rest of the history is untouched, no
clear happens. -/
theorem C2_nonmatching_noFire_frame (p : AppParams) (st st1 : ChannelMarbleState)
    (m : String) (t : Nat)
    (hm : match_predicate m = false)
    (h : st.process_message p m t = some (st1, Decision.NoFire)) :
    st1.next_play = st.next_play ∧
    st1.buffer = st.buffer.set ((st.current_position + 1) % p.buffer_size) false := by
  have h1 := process_message_noFire h
  subst h1
  exact ⟨rfl, by simp [ChannelMarbleState.write_message, hm]⟩

/-- Witness for C2 amended at a concrete non-matching `NoFire` step. -/
theorem C2_nonmatching_noFire_frame_witness :
    (ChannelMarbleState.mk "c" [false, false] 1 0).next_play =
      (ChannelMarbleState.mk "c" [false, false] 0 0).next_play ∧
    (ChannelMarbleState.mk "c" [false, false] 1 0).buffer =
      (ChannelMarbleState.mk "c" [false, false] 0 0).buffer.set ((0 + 1) % 2) false :=
  C2_nonmatching_noFire_frame (AppParams.mk 2 1 10 0 "m" "l" "o")
    (ChannelMarbleState.mk "c" [false, false] 0 0)
    (ChannelMarbleState.mk "c" [false, false] 1 0) "hi" 5 (by decide) (by decide)

/-! ### C1 — dispatcher behaviour on unwatched channels -/

/-- C1 fails on the code: a chat message for a channel outside the watch set
is not ignored — `marble_states.get_mut(..).unwrap()` panics (modelled as
`none`), even though the watch set is non-empty and well-formed. -/
theorem C1_counterexample :
    process_message (AppParams.mk 10 5 120 5 "!play >:(" "l" "o")
      [("chan", ChannelMarbleState.new "chan" 10 0)]
      (ServerMessage.Privmsg "other" "hello") 0 = none := by
  decide

/-- C1 amended: non-chat server messages (any variant other than `Privmsg`)
are silently ignored with no state change; but a chat message whose channel
is not in the watch set makes the dispatcher panic (`unwrap` on the missing
map entry) instead of being ignored. -/
theorem C1_dispatcher_unknown_channel (p : AppParams) (now : Nat)
    (states : List (String × ChannelMarbleState)) :
    process_message p states ServerMessage.Other now = some states ∧
    ∀ ch txt, states.lookup ch = none →
      process_message p states (ServerMessage.Privmsg ch txt) now = none := by
  refine ⟨rfl, ?_⟩
  intro ch txt hch
  simp only [process_message, hch]

/-- Witness for C1 amended on the empty watch set. -/
theorem C1_dispatcher_unknown_channel_witness :
    process_message (AppParams.mk 10 5 120 5 "p" "l" "o") []
      ServerMessage.Other 0 = some [] ∧
    ∀ ch txt, ([] : List (String × ChannelMarbleState)).lookup ch = none →
      process_message (AppParams.mk 10 5 120 5 "p" "l" "o") []
        (ServerMessage.Privmsg ch txt) 0 = none :=
  C1_dispatcher_unknown_channel (AppParams.mk 10 5 120 5 "p" "l" "o") 0 []

/-! ### C6 — configuration validation and totality of observe -/

/-- C6 fails on the code: clap as declared in `Cli` accepts
`buffer_size = 0` with `treshhold = 5` (threshold out of `[0, history_size]`
and `history_size < 1`; only empty credential/channel strings are rejected),
and the detector then panics on the very first message (`% 0`), modelled as
`none`. -/
theorem C6_counterexample :
    cli_accepts (Cli.mk 0 5 120 5 "p" "login" "oauth" ["chan"]) = true ∧
    (ChannelMarbleState.new "chan" 0 0).process_message
      (AppParams.mk 0 5 120 5 "p" "login" "oauth") "!play" 1 = none := by
  decide

/-- C6 amended: no startup range validation exists (only
`forbid_empty_values` on credentials and channel names), so the totality of
the observe operation holds only for configurations with
`history_size ≥ 1`, the buffer having that length as built at startup. -/
theorem C6_observe_total (p : AppParams) (st : ChannelMarbleState)
    (m : String) (t : Nat)
    (h1 : 0 < p.buffer_size) (h2 : st.buffer.length = p.buffer_size) :
    ∃ r, st.process_message p m t = some r :=
  process_message_total m t h1 h2

/-- Witness for C6 amended at a concrete configuration. -/
theorem C6_observe_total_witness :
    ∃ r, (ChannelMarbleState.new "c" 2 0).process_message
      (AppParams.mk 2 1 10 0 "m" "l" "o") "x" 1 = some r :=
  C6_observe_total (AppParams.mk 2 1 10 0 "m" "l" "o")
    (ChannelMarbleState.new "c" 2 0) "x" 1 (by decide) (by decide)

/-! ### Helper lemmas about lists -/

theorem getD_set_ne {l : List Bool} {i j : Nat} (v d : Bool) (hij : i ≠ j) :
    (l.set i v).getD j d = l.getD j d := by
  rw [List.getD_eq_getD_get?, List.getD_eq_getD_get?, List.get?_eq_getElem?,
    List.get?_eq_getElem?, List.getElem?_set_ne hij]

theorem clear_buffer_getD (l : List Bool) (i : Nat) :
    (clear_buffer l).getD i false = false := by
  rw [clear_buffer, List.getD_eq_getD_get?, List.get?_eq_getElem?, List.getElem?_map]
  cases l[i]? <;> simp

theorem replicate_getD (n i : Nat) :
    (List.replicate n false).getD i false = false := by
  rw [List.getD_eq_getD_get?, List.get?_eq_getElem?]
  cases h : (List.replicate n false)[i]?
  · simp
  · have := List.getElem?_mem h
    simp [List.eq_of_mem_replicate this]

/-! ### Lemmas about runs of observations -/

theorem run_steps_next_play_le (p : AppParams) :
    ∀ (msgs : List (String × Nat)) (st st' : ChannelMarbleState),
    run_steps p st msgs = some st' → st.next_play ≤ st'.next_play := by
  intro msgs
  induction msgs with
  | nil =>
    intro st st' h
    simp only [run_steps, Option.some.injEq] at h
    rw [h]
  | cons mt rest ih =>
    intro st st' h
    obtain ⟨m, t⟩ := mt
    simp only [run_steps] at h
    cases hstep : st.process_message p m t with
    | none => rw [hstep] at h; cases h
    | some r =>
      obtain ⟨st1, d⟩ := r
      rw [hstep] at h
      exact Nat.le_trans (process_message_next_play_le hstep) (ih st1 st' h)

theorem run_steps_cursor (p : AppParams) :
    ∀ (msgs : List (String × Nat)) (st st' : ChannelMarbleState),
    run_steps p st msgs = some st' →
    st.current_position < p.buffer_size →
    st'.current_position = (st.current_position + msgs.length) % p.buffer_size := by
  intro msgs
  induction msgs with
  | nil =>
    intro st st' h hc
    simp only [run_steps, Option.some.injEq] at h
    rw [← h, List.length_nil, Nat.add_zero, Nat.mod_eq_of_lt hc]
  | cons mt rest ih =>
    intro st st' h hc
    obtain ⟨m, t⟩ := mt
    simp only [run_steps] at h
    cases hstep : st.process_message p m t with
    | none => rw [hstep] at h; cases h
    | some r =>
      obtain ⟨st1, d⟩ := r
      rw [hstep] at h
      have hN : 0 < p.buffer_size := (process_message_guards hstep).1
      have hcur : st1.current_position = (st.current_position + 1) % p.buffer_size :=
        process_message_cursor hstep
      have := ih st1 st' h (by rw [hcur]; exact Nat.mod_lt _ hN)
      rw [this, hcur, Nat.mod_add_mod]
      have harith : st.current_position + 1 + rest.length =
          st.current_position + (rest.length + 1) := by omega
      rw [harith, List.length_cons]

theorem run_steps_slot0 (p : AppParams) :
    ∀ (msgs : List (String × Nat)) (st st' : ChannelMarbleState),
    run_steps p st msgs = some st' →
    st.current_position + msgs.length < p.buffer_size →
    st.buffer.getD 0 false = false →
    st'.buffer.getD 0 false = false := by
  intro msgs
  induction msgs with
  | nil =>
    intro st st' h hlt h0
    simp only [run_steps, Option.some.injEq] at h
    rw [← h]; exact h0
  | cons mt rest ih =>
    intro st st' h hlt h0
    obtain ⟨m, t⟩ := mt
    simp only [run_steps] at h
    cases hstep : st.process_message p m t with
    | none => rw [hstep] at h; cases h
    | some r =>
      obtain ⟨st1, d⟩ := r
      rw [hstep] at h
      rw [List.length_cons] at hlt
      have hpos : (st.current_position + 1) % p.buffer_size = st.current_position + 1 :=
        Nat.mod_eq_of_lt (by omega)
      have hcur : st1.current_position = st.current_position + 1 := by
        rw [process_message_cursor hstep, hpos]
      have h1 : st1.buffer.getD 0 false = false := by
        cases d
        · rw [(process_message_fire hstep).1]
          exact clear_buffer_getD _ 0
        · rw [process_message_noFire hstep, ChannelMarbleState.write_message, hpos]
          rw [getD_set_ne _ _ (by omega)]
          exact h0
      exact ih st1 st' h (by omega) h1

/-! ### C3 — cooldown enforcement across a whole run -/

/-- C3: once an observation decides `Fire` at time `T`, any later
observation on the same channel that decides `Fire` — after arbitrarily
many intermediate observations, however much matching evidence they carry —
happens at a time `t` with `T + delay ≤ t`: never earlier than the end of
the cooldown. -/
theorem C3_cooldown_enforced (p : AppParams) (st st1 st2 st3 : ChannelMarbleState)
    (m : String) (T : Nat)
    (hfire1 : st.process_message p m T = some (st1, Decision.Fire))
    (msgs : List (String × Nat))
    (hrun : run_steps p st1 msgs = some st2)
    (m' : String) (t : Nat)
    (hfire2 : st2.process_message p m' t = some (st3, Decision.Fire)) :
    T + p.delay ≤ t := by
  have h1 : st1.next_play = T + p.delay := by
    rw [(process_message_fire hfire1).1]
  have h2 : st1.next_play ≤ st2.next_play :=
    run_steps_next_play_le p msgs st1 st2 hrun
  have h3 : st2.next_play < t := (process_message_fire hfire2).2.1
  omega

/-- Witness for C3 on a concrete two-fire run. -/
theorem C3_cooldown_enforced_witness :
    1 + (AppParams.mk 1 0 10 0 "m" "l" "o").delay ≤ 12 :=
  C3_cooldown_enforced (AppParams.mk 1 0 10 0 "m" "l" "o")
    (ChannelMarbleState.mk "c" [false] 0 0)
    (ChannelMarbleState.mk "c" [false] 0 11)
    (ChannelMarbleState.mk "c" [false] 0 11)
    (ChannelMarbleState.mk "c" [false] 0 22)
    "a" 1 (by decide) [("b", 5)] (by decide) "cc" 12 (by decide)

/-! ### C10 — cursor advance before write, slot 0, cursor range -/

/-- C10: from a freshly created channel state with `history_size ≥ 2`, the
cursor is advanced before each write: the first observed message is
recorded at slot 1 (for a `NoFire` observation the buffer is exactly the
initial all-false buffer with slot 1 overwritten), slot 0 keeps its
initial `false` until the `history_size`-th observation wraps the cursor
back to 0 (cursor after `k` observations is `k % history_size`), and the
cursor always stays in `[0, history_size)`. -/
theorem C10_cursor_and_first_slot (p : AppParams) (h2 : 2 ≤ p.buffer_size)
    (login : String) (t0 : Nat) (msgs : List (String × Nat))
    (st' : ChannelMarbleState)
    (hrun : run_steps p (ChannelMarbleState.new login p.buffer_size t0) msgs =
      some st') :
    st'.current_position = msgs.length % p.buffer_size ∧
    st'.current_position < p.buffer_size ∧
    (msgs.length < p.buffer_size → st'.buffer.getD 0 false = false) ∧
    ∀ m t st1 d,
      (ChannelMarbleState.new login p.buffer_size t0).process_message p m t =
        some (st1, d) →
      st1.current_position = 1 ∧
      (d = Decision.NoFire →
        st1.buffer = (List.replicate p.buffer_size false).set 1
          (match_predicate m)) := by
  have hN : 0 < p.buffer_size := by omega
  have hcur0 : (ChannelMarbleState.new login p.buffer_size t0).current_position = 0 := rfl
  refine ⟨?_, ?_, ?_, ?_⟩
  · have := run_steps_cursor p msgs _ st' hrun (by rw [hcur0]; exact hN)
    rwa [hcur0, Nat.zero_add] at this
  · have := run_steps_cursor p msgs _ st' hrun (by rw [hcur0]; exact hN)
    rw [this]
    exact Nat.mod_lt _ hN
  · intro hlen
    exact run_steps_slot0 p msgs _ st' hrun (by rw [hcur0]; omega)
      (replicate_getD _ 0)
  · intro m t st1 d hstep
    have h1 : (1 : Nat) % p.buffer_size = 1 := Nat.mod_eq_of_lt (by omega)
    constructor
    · rw [process_message_cursor hstep, hcur0, Nat.zero_add, h1]
    · intro hd
      subst hd
      rw [process_message_noFire hstep, ChannelMarbleState.write_message]
      simp only [ChannelMarbleState.new, hcur0, Nat.zero_add, h1]

/-- Witness for C10 on a concrete one-message run. -/
theorem C10_cursor_and_first_slot_witness :
    (ChannelMarbleState.mk "c" [false, true] 1 0).current_position =
      [("!play", 1)].length % (AppParams.mk 2 99 10 0 "m" "l" "o").buffer_size ∧
    (ChannelMarbleState.mk "c" [false, true] 1 0).current_position <
      (AppParams.mk 2 99 10 0 "m" "l" "o").buffer_size ∧
    ([("!play", 1)].length < (AppParams.mk 2 99 10 0 "m" "l" "o").buffer_size →
      (ChannelMarbleState.mk "c" [false, true] 1 0).buffer.getD 0 false = false) ∧
    ∀ m t st1 d,
      (ChannelMarbleState.new "c" (AppParams.mk 2 99 10 0 "m" "l" "o").buffer_size
        0).process_message (AppParams.mk 2 99 10 0 "m" "l" "o") m t =
        some (st1, d) →
      st1.current_position = 1 ∧
      (d = Decision.NoFire →
        st1.buffer = (List.replicate (AppParams.mk 2 99 10 0 "m" "l" "o").buffer_size
          false).set 1 (match_predicate m)) :=
  C10_cursor_and_first_slot (AppParams.mk 2 99 10 0 "m" "l" "o") (by decide)
    "c" 0 [("!play", 1)] (ChannelMarbleState.mk "c" [false, true] 1 0) (by decide)

/-! ### More list and arithmetic helpers -/

theorem getD_set_self {l : List Bool} {i : Nat} (v d : Bool) (h : i < l.length) :
    (l.set i v).getD i d = v := by
  rw [List.getD_eq_getD_get?, List.get?_eq_getElem?, List.getElem?_set_eq_of_lt v h]
  rfl

theorem add_mod_inj {N x d : Nat} (hd1 : 0 < d) (hd2 : d < N) :
    (x + d) % N ≠ x % N := by
  intro h
  have hdvd : N ∣ x + d - x := (Nat.modEq_iff_dvd' (Nat.le_add_right x d)).mp h.symm
  rw [Nat.add_sub_cancel_left] at hdvd
  exact absurd (Nat.le_of_dvd hd1 hdvd) (by omega)

theorem run_no_fire_cons {p : AppParams} {st st' : ChannelMarbleState}
    {m : String} {t : Nat} {rest : List (String × Nat)}
    (h : run_no_fire p st ((m, t) :: rest) = some st') :
    ∃ st1, st.process_message p m t = some (st1, Decision.NoFire) ∧
      run_no_fire p st1 rest = some st' := by
  simp only [run_no_fire] at h
  cases hstep : st.process_message p m t with
  | none => rw [hstep] at h; cases h
  | some r =>
    obtain ⟨st1, d⟩ := r
    rw [hstep] at h
    cases d with
    | Fire => cases h
    | NoFire => exact ⟨st1, rfl, h⟩

/-! ### The ring-buffer invariant along a fire-free run

After a fire-free run of `k` observations from a state with cursor `c` and
buffer length `N`, the slot `(c + k + (N - a)) % N` — the one written by the
`(k - a)`-th observation, for `a < min k N` — holds the predicate result of
that observation, and the remaining slots still hold their initial values. -/

theorem run_no_fire_buffer_inv (p : AppParams) :
    ∀ (msgs : List (String × Nat)) (st st' : ChannelMarbleState),
    run_no_fire p st msgs = some st' →
    st.current_position < p.buffer_size →
    st.buffer.length = p.buffer_size →
    st'.buffer.length = p.buffer_size ∧
    ∀ a, a < p.buffer_size →
      st'.buffer.getD
        ((st.current_position + msgs.length + (p.buffer_size - a)) %
          p.buffer_size) false =
      if a < msgs.length then
        (msgs.map fun mt => match_predicate mt.1).getD (msgs.length - 1 - a) false
      else
        st.buffer.getD
          ((st.current_position + msgs.length + (p.buffer_size - a)) %
            p.buffer_size) false := by
  intro msgs
  induction msgs with
  | nil =>
    intro st st' h hc hlen
    simp only [run_no_fire, Option.some.injEq] at h
    subst h
    refine ⟨hlen, ?_⟩
    intro a ha
    simp only [List.length_nil]
    rw [if_neg (by omega)]
  | cons mt rest ih =>
    intro st st' h hc hlen
    obtain ⟨m, t⟩ := mt
    obtain ⟨st1, hstep, hrest⟩ := run_no_fire_cons h
    have hN : 0 < p.buffer_size := by omega
    have e1 : st1 = st.write_message p m := process_message_noFire hstep
    have hc1 : st1.current_position < p.buffer_size := by
      rw [e1, ChannelMarbleState.write_message]
      exact Nat.mod_lt _ hN
    have hl1 : st1.buffer.length = p.buffer_size := by
      rw [process_message_length hstep]
      exact hlen
    obtain ⟨ihlen, ihget⟩ := ih st1 st' hrest hc1 hl1
    refine ⟨ihlen, ?_⟩
    intro a ha
    have hcur1 : st1.current_position =
        (st.current_position + 1) % p.buffer_size := by
      rw [e1, ChannelMarbleState.write_message]
    have hslot : (st1.current_position + rest.length + (p.buffer_size - a)) %
        p.buffer_size =
        (st.current_position + ((m, t) :: rest).length + (p.buffer_size - a)) %
        p.buffer_size := by
      rw [hcur1, Nat.add_assoc, Nat.mod_add_mod, List.length_cons]
      congr 1
      omega
    have hval := ihget a ha
    rw [hslot] at hval
    rcases Nat.lt_trichotomy a rest.length with hak | hak | hak
    · rw [if_pos hak] at hval
      rw [hval, List.length_cons, if_pos (by omega), List.map_cons]
      have hidx : rest.length + 1 - 1 - a = (rest.length - 1 - a) + 1 := by omega
      rw [hidx, List.getD_cons_succ]
    · rw [if_neg (by omega)] at hval
      rw [hval, e1, ChannelMarbleState.write_message, List.length_cons]
      have hslot2 : (st.current_position + (rest.length + 1) +
          (p.buffer_size - a)) % p.buffer_size =
          (st.current_position + 1) % p.buffer_size := by
        have harith : st.current_position + (rest.length + 1) +
            (p.buffer_size - a) = (st.current_position + 1) + p.buffer_size := by
          omega
        rw [harith, Nat.add_mod_right]
      rw [hslot2, if_pos (by omega)]
      have hidx : rest.length + 1 - 1 - a = 0 := by omega
      rw [hidx, List.map_cons, List.getD_cons_zero]
      exact getD_set_self _ _ (by rw [hlen]; exact Nat.mod_lt _ hN)
    · rw [if_neg (by omega)] at hval
      rw [hval, e1, ChannelMarbleState.write_message, List.length_cons,
        if_neg (by omega)]
      have harith : st.current_position + (rest.length + 1) +
          (p.buffer_size - a) =
          (st.current_position + 1) + (rest.length + (p.buffer_size - a)) := by
        omega
      rw [harith]
      exact getD_set_ne _ _ (Ne.symm (add_mod_inj (by omega) (by omega)))

/-! ### Counting the buffer through its slots -/

theorem filter_length_eq_sum (l : List Bool) :
    (l.filter fun x => x).length =
      ∑ s in Finset.range l.length, (if l.getD s false then 1 else 0) := by
  induction l with
  | nil => simp
  | cons b tl ih =>
    rw [List.length_cons, Finset.sum_range_succ']
    simp only [List.getD_cons_succ, List.getD_cons_zero]
    rw [← ih]
    cases b <;> simp [List.filter_cons]

theorem sum_rev_window (l : List Bool) :
    ∀ n : Nat,
    ∑ a in Finset.range n,
      (if a < l.length then (if l.getD (l.length - 1 - a) false then 1 else 0)
       else 0) =
    ((l.drop (l.length - n)).filter fun x => x).length := by
  induction l using List.reverseRecOn with
  | nil => intro n; simp
  | append_singleton tl b ih =>
    intro n
    cases n with
    | zero =>
      simp [List.drop_length]
    | succ n' =>
      rw [Finset.sum_range_succ']
      have hlen : (tl ++ [b]).length = tl.length + 1 := by simp
      have hterm0 :
          (if 0 < (tl ++ [b]).length
           then (if (tl ++ [b]).getD ((tl ++ [b]).length - 1 - 0) false
                 then 1 else 0)
           else 0) = if b then 1 else 0 := by
        rw [if_pos (by simp)]
        have hidx : (tl ++ [b]).length - 1 - 0 = tl.length := by simp
        rw [hidx, List.getD_append_right _ _ _ _ (Nat.le_refl _), Nat.sub_self]
        rfl
      have hterm : ∀ a, (if a + 1 < (tl ++ [b]).length
           then (if (tl ++ [b]).getD ((tl ++ [b]).length - 1 - (a + 1)) false
                 then 1 else 0)
           else 0) =
          (if a < tl.length
           then (if tl.getD (tl.length - 1 - a) false then 1 else 0)
           else 0) := by
        intro a
        rw [hlen]
        by_cases ha : a < tl.length
        · rw [if_pos (by omega), if_pos ha]
          have hidx : tl.length + 1 - 1 - (a + 1) = tl.length - 1 - a := by omega
          rw [hidx, List.getD_append _ _ _ _ (by omega)]
        · rw [if_neg (by omega), if_neg ha]
      calc (∑ a in Finset.range n',
              (if a + 1 < (tl ++ [b]).length
               then (if (tl ++ [b]).getD ((tl ++ [b]).length - 1 - (a + 1)) false
                     then 1 else 0)
               else 0)) +
            (if 0 < (tl ++ [b]).length
             then (if (tl ++ [b]).getD ((tl ++ [b]).length - 1 - 0) false
                   then 1 else 0)
             else 0)
          = (∑ a in Finset.range n',
              (if a < tl.length
               then (if tl.getD (tl.length - 1 - a) false then 1 else 0)
               else 0)) + (if b then 1 else 0) := by
            rw [hterm0, Finset.sum_congr rfl fun a _ => hterm a]
        _ = ((tl.drop (tl.length - n')).filter fun x => x).length +
              (if b then 1 else 0) := by
            rw [ih n']
        _ = (((tl ++ [b]).drop ((tl ++ [b]).length - (n' + 1))).filter
              fun x => x).length := by
            rw [hlen]
            have hidx : tl.length + 1 - (n' + 1) = tl.length - n' := by omega
            rw [hidx, List.drop_append_eq_append_drop,
              Nat.sub_eq_zero_of_le (Nat.sub_le _ _), List.drop_zero,
              List.filter_append, List.length_append]
            cases b <;> rfl

/-! ### C5 — the match count is the count over the last min(N, k) messages -/

/-- C5: starting from any state whose buffer is all false (a fresh channel
state, or the state right after a clear-on-fire) and observing any sequence
of messages none of which fires, the match count of the resulting state —
the count `is_treshhold_reached` sees at the last observation — equals the
number of the last `min(history_size, k)` messages satisfying the predicate
(`k` the number of messages observed since the clear), and it never exceeds
`history_size`. -/
theorem C5_window_count (p : AppParams) (st0 st' : ChannelMarbleState)
    (msgs : List (String × Nat))
    (hc : st0.current_position < p.buffer_size)
    (hbuf : st0.buffer = List.replicate p.buffer_size false)
    (hrun : run_no_fire p st0 msgs = some st') :
    match_count st' =
      ((msgs.drop (msgs.length - p.buffer_size)).filter fun mt =>
        match_predicate mt.1).length ∧
    (msgs.drop (msgs.length - p.buffer_size)).length =
      min p.buffer_size msgs.length ∧
    match_count st' ≤ p.buffer_size := by
  have hN : 0 < p.buffer_size := by omega
  have hlen0 : st0.buffer.length = p.buffer_size := by
    rw [hbuf, List.length_replicate]
  obtain ⟨hlen', hget⟩ := run_no_fire_buffer_inv p msgs st0 st' hrun hc hlen0
  have hA : match_count st' =
      ∑ s in Finset.range p.buffer_size,
        (if st'.buffer.getD s false then 1 else 0) := by
    rw [match_count, filter_length_eq_sum, hlen']
  have hinj : ∀ x ∈ Finset.range p.buffer_size, ∀ y ∈ Finset.range p.buffer_size,
      (st0.current_position + msgs.length + (p.buffer_size - x)) %
        p.buffer_size =
      (st0.current_position + msgs.length + (p.buffer_size - y)) %
        p.buffer_size → x = y := by
    intro x hx y hy hEq
    rw [Finset.mem_range] at hx hy
    rcases Nat.lt_trichotomy x y with hxy | hxy | hxy
    · exfalso
      have harith : st0.current_position + msgs.length + (p.buffer_size - x) =
          (st0.current_position + msgs.length + (p.buffer_size - y)) +
            (y - x) := by omega
      rw [harith] at hEq
      exact add_mod_inj (by omega) (by omega) hEq
    · exact hxy
    · exfalso
      have harith : st0.current_position + msgs.length + (p.buffer_size - y) =
          (st0.current_position + msgs.length + (p.buffer_size - x)) +
            (x - y) := by omega
      rw [harith] at hEq
      exact add_mod_inj (by omega) (by omega) hEq.symm
  have himg : (Finset.range p.buffer_size).image
      (fun a => (st0.current_position + msgs.length + (p.buffer_size - a)) %
        p.buffer_size) = Finset.range p.buffer_size := by
    apply Finset.eq_of_subset_of_card_le
    · intro s hs
      rw [Finset.mem_image] at hs
      obtain ⟨a, ha, rfl⟩ := hs
      rw [Finset.mem_range]
      exact Nat.mod_lt _ hN
    · rw [Finset.card_image_of_injOn
        (fun x hx y hy => hinj x (by simpa using hx) y (by simpa using hy))]
  have hB : ∑ s in Finset.range p.buffer_size,
      (if st'.buffer.getD s false then 1 else 0) =
      ∑ a in Finset.range p.buffer_size,
        (if st'.buffer.getD
          ((st0.current_position + msgs.length + (p.buffer_size - a)) %
            p.buffer_size) false then 1 else 0) := by
    conv_lhs => rw [← himg]
    rw [Finset.sum_image hinj]
  have hC : ∀ a ∈ Finset.range p.buffer_size,
      (if st'.buffer.getD
        ((st0.current_position + msgs.length + (p.buffer_size - a)) %
          p.buffer_size) false then 1 else 0) =
      (if a < (msgs.map fun mt => match_predicate mt.1).length
       then (if (msgs.map fun mt => match_predicate mt.1).getD
          ((msgs.map fun mt => match_predicate mt.1).length - 1 - a) false
          then 1 else 0)
       else 0) := by
    intro a ha
    rw [Finset.mem_range] at ha
    rw [hget a ha, List.length_map]
    by_cases hak : a < msgs.length
    · rw [if_pos hak, if_pos hak]
    · rw [if_neg hak, if_neg hak, hbuf, replicate_getD]
      rfl
  have hD : match_count st' =
      (((msgs.map fun mt => match_predicate mt.1).drop
        ((msgs.map fun mt => match_predicate mt.1).length -
          p.buffer_size)).filter fun x => x).length := by
    rw [hA, hB, Finset.sum_congr rfl hC,
      sum_rev_window (msgs.map fun mt => match_predicate mt.1) p.buffer_size]
  refine ⟨?_, ?_, ?_⟩
  · rw [hD, ← List.map_drop, List.filter_map]
    simp only [List.length_map]
    rfl
  · rw [List.length_drop]
    omega
  · rw [match_count, ← hlen']
    exact List.length_filter_le _ _

/-- Witness for C5 on a concrete three-message fire-free run with
`history_size = 2`. -/
theorem C5_window_count_witness :
    match_count (ChannelMarbleState.mk "c" [false, true] 1 0) =
      (([("!play x", 1), ("nope", 2), ("!play", 3)].drop
        ([("!play x", 1), ("nope", 2), ("!play", 3)].length -
          (AppParams.mk 2 5 10 0 "m" "l" "o").buffer_size)).filter fun mt =>
        match_predicate mt.1).length ∧
    ([("!play x", 1), ("nope", 2), ("!play", 3)].drop
        ([("!play x", 1), ("nope", 2), ("!play", 3)].length -
          (AppParams.mk 2 5 10 0 "m" "l" "o").buffer_size)).length =
      min (AppParams.mk 2 5 10 0 "m" "l" "o").buffer_size
        [("!play x", 1), ("nope", 2), ("!play", 3)].length ∧
    match_count (ChannelMarbleState.mk "c" [false, true] 1 0) ≤
      (AppParams.mk 2 5 10 0 "m" "l" "o").buffer_size :=
  C5_window_count (AppParams.mk 2 5 10 0 "m" "l" "o")
    (ChannelMarbleState.mk "c" [false, false] 0 0)
    (ChannelMarbleState.mk "c" [false, true] 1 0)
    [("!play x", 1), ("nope", 2), ("!play", 3)]
    (by decide) (by decide) (by decide)

/-! ### C9 — buffer wraparound with history size 3 after 5 observations -/

/-- C9: with `history_size = 3`, after 5 observations none of which fires,
the buffer holds exactly the predicate results of observations 3, 4 and 5
(here in the rotation placing observation 3 at slot 0), and in particular
nothing of observations 1 and 2. -/
theorem C9_wraparound (p : AppParams) (hp : p.buffer_size = 3)
    (login : String) (t0 : Nat)
    (m1 m2 m3 m4 m5 : String × Nat) (st' : ChannelMarbleState)
    (hrun : run_no_fire p (ChannelMarbleState.new login p.buffer_size t0)
      [m1, m2, m3, m4, m5] = some st') :
    st'.buffer =
      [match_predicate m3.1, match_predicate m4.1, match_predicate m5.1] := by
  obtain ⟨a1, t1⟩ := m1
  obtain ⟨a2, t2⟩ := m2
  obtain ⟨a3, t3⟩ := m3
  obtain ⟨a4, t4⟩ := m4
  obtain ⟨a5, t5⟩ := m5
  obtain ⟨s1, h1, hrun⟩ := run_no_fire_cons hrun
  obtain ⟨s2, h2, hrun⟩ := run_no_fire_cons hrun
  obtain ⟨s3, h3, hrun⟩ := run_no_fire_cons hrun
  obtain ⟨s4, h4, hrun⟩ := run_no_fire_cons hrun
  obtain ⟨s5, h5, hrun⟩ := run_no_fire_cons hrun
  simp only [run_no_fire, Option.some.injEq] at hrun
  subst hrun
  have e1 := process_message_noFire h1
  have e2 := process_message_noFire h2
  have e3 := process_message_noFire h3
  have e4 := process_message_noFire h4
  have e5 := process_message_noFire h5
  subst e1 e2 e3 e4 e5
  simp [ChannelMarbleState.write_message, ChannelMarbleState.new, hp,
    List.replicate_succ]

/-- Witness for C9 on a concrete five-message fire-free run. -/
theorem C9_wraparound_witness :
    (ChannelMarbleState.mk "c" [false, true, false] 2 0).buffer =
      [match_predicate "b", match_predicate "!play c", match_predicate "d"] :=
  C9_wraparound (AppParams.mk 3 99 10 0 "m" "l" "o") (by decide) "c" 0
    ("!play", 1) ("a", 2) ("b", 3) ("!play c", 4) ("d", 5)
    (ChannelMarbleState.mk "c" [false, true, false] 2 0) (by decide)
